import Mathlib

/-!
Verification of the Revalida exam-to-JSON extraction engine.

The definitions below are a shallow embedding of the Python sources
`pdf_extractor_complete.py`, `fix_extraction.py` and `api.py`:
strings are lists of characters, regular-expression searches are
translated into explicit leftmost-match scans with the same greedy
backtracking behaviour, and dictionaries become association lists with
insertion-order update semantics.
-/

/-- Python regex `\s` character class (ASCII part, the only part the
repository exercises): space, tab, newline, carriage return, vertical
tab and form feed. -/
def isWs (c : Char) : Bool :=
  c == ' ' || c == '\t' || c == '\n' || c == '\r' || c == '\x0b' || c == '\x0c'

/-- Length of the leading whitespace run, i.e. how many characters a
greedy `\s*` consumes at the head of `l`. -/
def wsRun (l : List Char) : Nat :=
  (l.takeWhile isWs).length

/-- Drop trailing whitespace (right half of Python `str.strip`). -/
def trimRight (l : List Char) : List Char :=
  (l.reverse.dropWhile isWs).reverse

/-- Python `str.strip()`: drop whitespace from both ends. -/
def trimList (l : List Char) : List Char :=
  trimRight (l.dropWhile isWs)

/-- `str.strip()` on packed strings. -/
def strip (s : String) : String :=
  String.mk (trimList s.data)

/-- Leftmost-match scan: index of the first suffix of `l` on which the
matcher `f` succeeds, the way `re.search` scans candidate start
positions left to right. -/
def scanPos (f : List Char → Bool) : List Char → Option Nat
  | [] => none
  | c :: cs => if f (c :: cs) then some 0 else (scanPos f cs).map (· + 1)

/-- Collapse every whitespace run to a single space, the effect of
`re.sub(r'\s+', ' ', text)`; `prevWs` remembers whether the previous
character was part of a run already emitted. -/
def collapseWsAux : Bool → List Char → List Char
  | _, [] => []
  | prevWs, c :: rest =>
    if isWs c then
      if prevWs then collapseWsAux true rest
      else ' ' :: collapseWsAux true rest
    else c :: collapseWsAux false rest

/-- `RevalidaPDFExtractor.normalize_text`: collapse whitespace runs to a
single space (which also removes newlines) and strip the ends. -/
def normalize_text (l : List Char) : List Char :=
  trimList (collapseWsAux false l)

/-- `block.replace('\r\n', '\n').replace('\r', '\n')`. -/
def fixCR : List Char → List Char
  | [] => []
  | [c] => if c = '\r' then ['\n'] else [c]
  | c1 :: c2 :: rest =>
    if c1 = '\r' then
      if c2 = '\n' then '\n' :: fixCR rest else '\n' :: fixCR (c2 :: rest)
    else c1 :: fixCR (c2 :: rest)

/-- Is the character a space or a tab (regex class `[ \t]`). -/
def isSpTab (c : Char) : Bool :=
  c == ' ' || c == '\t'

/-- `re.sub(r'[ \t]+', ' ', block)`: collapse space/tab runs only. -/
def collapseSpTabAux : Bool → List Char → List Char
  | _, [] => []
  | prev, c :: rest =>
    if isSpTab c then
      if prev then collapseSpTabAux true rest
      else ' ' :: collapseSpTabAux true rest
    else c :: collapseSpTabAux false rest

/-- Length of the leading run of plain spaces (regex ` +`). -/
def spaceRun (l : List Char) : Nat :=
  (l.takeWhile (fun c => c == ' ')).length

/-- `re.sub(r'\n +\n', '\n\n', block)`: a newline, one or more spaces
and a newline become two newlines; scanning resumes after each
replaced match, exactly like `re.sub`. Fuel-driven so that the kernel
can evaluate it; the callers pass `length + 1`, which is sufficient as
every step consumes at least one character. -/
def fixNlSpNlF : Nat → List Char → List Char
  | 0, l => l
  | _ + 1, [] => []
  | fuel + 1, c :: rest =>
    if c = '\n' then
      let k := spaceRun rest
      if 1 ≤ k ∧ (rest.drop k).head? = some '\n' then
        '\n' :: '\n' :: fixNlSpNlF fuel (rest.drop (k + 1))
      else '\n' :: fixNlSpNlF fuel rest
    else c :: fixNlSpNlF fuel rest

/-- `RevalidaPDFExtractor.preprocess_block`: normalize line
terminators, collapse horizontal whitespace, tidy blank lines, strip. -/
def preprocess_block (l : List Char) : List Char :=
  let a := fixCR l
  let b := collapseSpTabAux false a
  let c := fixNlSpNlF (b.length + 1) b
  trimList c

/-- Uppercasing for the case-insensitive comparisons: ASCII letters
plus the accented characters appearing in the repository patterns. -/
def toUpperPT (c : Char) : Char :=
  if decide ('a' ≤ c) && decide (c ≤ 'z') then Char.ofNat (c.toNat - 32)
  else if c == 'á' then 'Á' else if c == 'à' then 'À'
  else if c == 'â' then 'Â' else if c == 'ã' then 'Ã'
  else if c == 'é' then 'É' else if c == 'è' then 'È' else if c == 'ê' then 'Ê'
  else if c == 'í' then 'Í' else if c == 'ï' then 'Ï'
  else if c == 'ó' then 'Ó' else if c == 'ô' then 'Ô'
  else if c == 'õ' then 'Õ' else if c == 'ö' then 'Ö'
  else if c == 'ú' then 'Ú' else if c == 'ç' then 'Ç'
  else if c == 'ñ' then 'Ñ' else c

/-- Lowercasing counterpart of `toUpperPT`, used by `extract_gabarito`
for `text.lower()`. -/
def toLowerPT (c : Char) : Char :=
  if decide ('A' ≤ c) && decide (c ≤ 'Z') then Char.ofNat (c.toNat + 32)
  else if c == 'Á' then 'á' else if c == 'À' then 'à'
  else if c == 'Â' then 'â' else if c == 'Ã' then 'ã'
  else if c == 'É' then 'é' else if c == 'È' then 'è' else if c == 'Ê' then 'ê'
  else if c == 'Í' then 'í' else if c == 'Ï' then 'ï'
  else if c == 'Ó' then 'ó' else if c == 'Ô' then 'ô'
  else if c == 'Õ' then 'õ' else if c == 'Ö' then 'ö'
  else if c == 'Ú' then 'ú' else if c == 'Ç' then 'ç'
  else if c == 'Ñ' then 'ñ' else c

/-- Case-insensitive prefix test: does `l` start with `pat` up to
`toUpperPT` folding?  `pat` is written in uppercase. -/
def ciPrefix : List Char → List Char → Bool
  | [], _ => true
  | _ :: _, [] => false
  | p :: ps, c :: cs => (toUpperPT c == toUpperPT p) && ciPrefix ps cs

/-- The uppercase class `[A-ZÁÀÂÃÉÈÊÍÏÓÔÕÖÚÇÑ]` of the first repair
pattern in `extract_options_from_stem` / `fix_empty_options`. -/
def isUpperPT (c : Char) : Bool :=
  (decide ('A' ≤ c) && decide (c ≤ 'Z')) ||
    (['Á','À','Â','Ã','É','È','Ê','Í','Ï','Ó','Ô','Õ','Ö','Ú','Ç','Ñ'] : List Char).contains c

/-- The option-letter class `[A-E]`. -/
def isLetterAE (c : Char) : Bool :=
  c == 'A' || c == 'B' || c == 'C' || c == 'D' || c == 'E'

/-- Length of the leading run of decimal digits (greedy `\d+`). -/
def digitRun (l : List Char) : Nat :=
  (l.takeWhile Char.isDigit).length

/-- Decimal value of a digit list. -/
def natOfDigits (l : List Char) : Nat :=
  l.foldl (fun n c => n * 10 + (c.toNat - '0'.toNat)) 0

/-!
## Option Repair (`fix_extraction.extract_options_from_stem`,
`api.fix_empty_options`)

The three candidate boundary patterns, tried in order:
1. `(?:^|\n)\s*A\s+(?=[A-ZÁÀÂÃÉÈÊÍÏÓÔÕÖÚÇÑ])` (MULTILINE)
2. `\s+A\s+`
3. `(?:^|\n)A\s` (MULTILINE)
Each search is rendered as a leftmost-position scan; because the
letter and the characters around it are non-whitespace, the greedy
`\s*`/`\s+` pieces are forced to consume exactly the maximal
whitespace runs, which the scans encode directly.
-/

/-- Body of pattern 1 after its `(?:^|\n)` prefix: `\s*A\s+` followed
by an uppercase-letter lookahead. -/
def core1 (l : List Char) : Bool :=
  let k := wsRun l
  ((l.drop k).head? == some 'A') &&
    (let u := l.drop (k + 1)
     let m := wsRun u
     decide (1 ≤ m) &&
       (match (u.drop m).head? with
        | some c => isUpperPT c
        | none => false))

/-- Pattern 1 matching through its literal-`\n` alternative. -/
def nlCore1 (l : List Char) : Bool :=
  (l.head? == some '\n') && core1 l.tail

/-- Leftmost start of pattern 1.  A start-anchored match is only
possible at position 0 (a match anchored just after a `\n` is
subsumed by the literal-`\n` match one position earlier). -/
def search1 (l : List Char) : Option Nat :=
  if core1 l then some 0 else scanPos nlCore1 l

/-- Pattern 2 `\s+A\s+` tested at a fixed start position. -/
def matchAt2 (l : List Char) : Bool :=
  let k := wsRun l
  decide (1 ≤ k) && ((l.drop k).head? == some 'A') &&
    (match (l.drop (k + 1)).head? with
     | some c => isWs c
     | none => false)

/-- Leftmost start of pattern 2. -/
def search2 (l : List Char) : Option Nat :=
  scanPos matchAt2 l

/-- Body of pattern 3 after its `(?:^|\n)` prefix: `A\s`. -/
def core3 (l : List Char) : Bool :=
  (l.head? == some 'A') &&
    (match (l.drop 1).head? with
     | some c => isWs c
     | none => false)

/-- Pattern 3 matching through its literal-`\n` alternative. -/
def nlCore3 (l : List Char) : Bool :=
  (l.head? == some '\n') && core3 l.tail

/-- Leftmost start of pattern 3. -/
def search3 (l : List Char) : Option Nat :=
  if core3 l then some 0 else scanPos nlCore3 l

/-- The ordered fallback chain of the repair stage: the start position
of the first of the three boundary patterns that matches
(`first_option` in the Python sources). -/
def findFirstOption (l : List Char) : Option Nat :=
  match search1 l with
  | some p => some p
  | none =>
    match search2 l with
    | some p => some p
    | none => search3 l

/-- One match attempt of the splitting pattern `\s+([A-E])\s+` at the
head of `l`: on success, the captured letter and the text after the
match (both whitespace runs are consumed greedily and, because the
neighbours are non-whitespace, exactly). -/
def matchSplitHere (l : List Char) : Option (Char × List Char) :=
  if wsRun l = 0 then none
  else
    match l.drop (wsRun l) with
    | [] => none
    | c :: u =>
      if isLetterAE c then
        if wsRun u = 0 then none else some (c, u.drop (wsRun u))
      else none

/-- Leftmost match of `\s+([A-E])\s+`: the fragment before the match,
the captured letter, and the rest after the match. -/
def findSplit : List Char → Option (List Char × Char × List Char)
  | [] => none
  | x :: xs =>
    match matchSplitHere (x :: xs) with
    | some (c, rest) => some ([], c, rest)
    | none => (findSplit xs).map (fun pr => (x :: pr.1, pr.2.1, pr.2.2))

/-- `re.split(r'\s+([A-E])\s+', text)` in structured form: the
fragment before the first match, then for each match its captured
letter paired with the fragment that follows it.  Fuel-driven; every
match consumes at least one character, so `length + 1` fuel always
suffices. -/
def splitStructF : Nat → List Char → String × List (Char × String)
  | 0, l => (String.mk l, [])
  | fuel + 1, l =>
    match findSplit l with
    | none => (String.mk l, [])
    | some (pre, c, rest) =>
      let r := splitStructF fuel rest
      (String.mk pre, (c, r.1) :: r.2)

/-- Structured `re.split` with sufficient fuel. -/
def splitStruct (l : List Char) : String × List (Char × String) :=
  splitStructF (l.length + 1) l

/-- The captured letters of the alternating split, in order. -/
def capturedLetters (l : List Char) : List Char :=
  (splitStruct l).2.map Prod.fst

/-- Flatten the structured split back into the flat `parts` list the
Python loops iterate over: fragment, letter, fragment, letter, ... -/
def flattenPairs (ps : List (Char × String)) : List String :=
  ps.flatMap (fun pr => [String.singleton pr.1, pr.2])

/-- The flat `parts = re.split(r'\s+([A-E])\s+', options_text)`. -/
def splitParts (l : List Char) : List String :=
  (splitStruct l).1 :: flattenPairs (splitStruct l).2

/-- The `options` dictionary: the five letter keys, absent modelled as
the empty string (`options.get(letter, "")`). -/
structure OptsFive where
  A : String
  B : String
  C : String
  D : String
  E : String
deriving DecidableEq, Repr

/-- The all-absent dictionary. -/
def emptyOpts : OptsFive := ⟨"", "", "", "", ""⟩

/-- `options[current_letter] = text`. -/
def setOptFive (o : OptsFive) (letter : String) (text : String) : OptsFive :=
  if letter = "A" then { o with A := text }
  else if letter = "B" then { o with B := text }
  else if letter = "C" then { o with C := text }
  else if letter = "D" then { o with D := text }
  else if letter = "E" then { o with E := text }
  else o

/-- Drop a single leading period: `re.sub(r'^\.\s*', '', text)`. -/
def dropLeadingPeriod (l : List Char) : List Char :=
  match l with
  | '.' :: t => t.dropWhile isWs
  | _ => l

/-- Truncate at the leftmost position where `test` matches, the
effect of `re.sub(p + r'.*$', '', text)` for a pattern with no
newline in scope. -/
def truncAt (test : List Char → Bool) (l : List Char) : List Char :=
  match scanPos test l with
  | some i => l.take i
  | none => l

/-- Matcher for `\s*ÁREA\s+LIVRE` (IGNORECASE) at a position. -/
def areaTest (l : List Char) : Bool :=
  let t := l.drop (wsRun l)
  ciPrefix "ÁREA".data t &&
    (let t2 := t.drop 4
     let m := wsRun t2
     decide (1 ≤ m) && ciPrefix "LIVRE".data (t2.drop m))

/-- Matcher for `\s*---\s*PAGE\s+\d+\s*---` (IGNORECASE) at a
position. -/
def pageBannerTest (l : List Char) : Bool :=
  let t := l.drop (wsRun l)
  ciPrefix "---".data t &&
    (let t2 := t.drop 3
     let t3 := t2.drop (wsRun t2)
     ciPrefix "PAGE".data t3 &&
       (let t4 := t3.drop 4
        let m2 := wsRun t4
        decide (1 ≤ m2) &&
          (let t5 := t4.drop m2
           let d := digitRun t5
           decide (1 ≤ d) &&
             (let t6 := t5.drop d
              ciPrefix "---".data (t6.drop (wsRun t6))))))

/-- Matcher for `\s*<word>\s+EDI[ÇC][ÃA]O` (IGNORECASE) at a position,
with `word` either `PRIMEIRA` or `SEGUNDA`. -/
def editionTest (word : String) (l : List Char) : Bool :=
  let t := l.drop (wsRun l)
  ciPrefix word.data t &&
    (let t2 := t.drop word.length
     let m := wsRun t2
     decide (1 ≤ m) &&
       (let t3 := t2.drop m
        ciPrefix "EDI".data t3 &&
          (match t3.drop 3 with
           | c1 :: c2 :: c3 :: _ =>
             (toUpperPT c1 == 'Ç' || toUpperPT c1 == 'C') &&
               (toUpperPT c2 == 'Ã' || toUpperPT c2 == 'A') &&
               (toUpperPT c3 == 'O')
           | _ => false)))

/-- Per-option text cleanup shared by `extract_options_from_stem` and
`fix_empty_options`: collapse whitespace, strip, drop a leading
period, cut everything from the first running-header/footer fragment,
strip again. -/
def cleanOptionText (part : String) : String :=
  let t1 := trimList (collapseWsAux false part.data)
  let t2 := dropLeadingPeriod t1
  let t3 := truncAt areaTest t2
  let t4 := truncAt pageBannerTest t3
  let t5 := truncAt (editionTest "PRIMEIRA") t4
  let t6 := truncAt (editionTest "SEGUNDA") t5
  String.mk (trimList t6)

/-- The letter-alternation loop of the repair stage: walk the flat
`parts`, remember the last single-letter part as the current letter,
and assign the next non-empty non-letter part to it (flushing resets
the current letter); parts seen before any letter are discarded. -/
def optionsLoop : List String → Option String → OptsFive → OptsFive
  | [], _, opts => opts
  | p :: rest, cur, opts =>
    let part := strip p
    if part = "" then optionsLoop rest cur opts
    else if part ∈ (["A", "B", "C", "D", "E"] : List String) then
      optionsLoop rest (some part) opts
    else
      match cur with
      | some c => optionsLoop rest none (setOptFive opts c (cleanOptionText part))
      | none => optionsLoop rest none opts

/-- Result record of `extract_options_from_stem`. -/
structure RepairResult where
  stem_clean : String
  option_a : String
  option_b : String
  option_c : String
  option_d : String
  option_e : String
deriving DecidableEq, Repr

/-- Core of `fix_extraction.extract_options_from_stem` on character
lists: find the boundary with the ordered patterns; on failure return
the stem unchanged with empty options; on success split the stem at
the boundary, strip both halves, run the alternating split and the
collection loop on the option section. -/
def extractOptionsCore (l : List Char) : RepairResult :=
  match findFirstOption l with
  | none => ⟨String.mk l, "", "", "", "", ""⟩
  | some p =>
    let stemClean := trimList (l.take p)
    let optsText := trimList (l.drop p)
    let opts := optionsLoop (splitParts optsText) none emptyOpts
    ⟨String.mk stemClean, opts.A, opts.B, opts.C, opts.D, opts.E⟩

/-- `fix_extraction.extract_options_from_stem`. -/
def extract_options_from_stem (s : String) : RepairResult :=
  extractOptionsCore s.data

/-- One question record as the API serializes it: `number`, `stem`,
nested `options` with exactly the keys A..E, `correct_letter`,
`has_image`, `images`. -/
structure QuestionRecord where
  number : Nat
  stem : String
  options : OptsFive
  correct_letter : String
  has_image : Bool
  images : List String
deriving DecidableEq, Repr

/-- Per-record body of `api.fix_empty_options`: when options A and B
are both empty and a boundary pattern matches the stem, the repaired
stem and all five options replace the originals unconditionally;
without a boundary, or without the empty-A-and-B trigger, the record
is untouched. -/
def fixRecordApi (q : QuestionRecord) : QuestionRecord :=
  if q.options.A = "" ∧ q.options.B = "" then
    match findFirstOption q.stem.data with
    | none => q
    | some _ =>
      { q with
          stem := (extract_options_from_stem q.stem).stem_clean,
          options :=
            ⟨(extract_options_from_stem q.stem).option_a,
              (extract_options_from_stem q.stem).option_b,
              (extract_options_from_stem q.stem).option_c,
              (extract_options_from_stem q.stem).option_d,
              (extract_options_from_stem q.stem).option_e⟩ }
  else q

/-- `api.fix_empty_options` over the whole collection. -/
def fix_empty_options (l : List QuestionRecord) : List QuestionRecord :=
  l.map fixRecordApi

/-- Per-record body of the correction pass inside
`fix_extraction.fix_json_file`: same trigger, but the repaired values
are committed only if the repair produced a non-empty option A or B. -/
def fixRecordJson (q : QuestionRecord) : QuestionRecord :=
  if q.options.A = "" ∧ q.options.B = "" then
    if (extract_options_from_stem q.stem).option_a ≠ "" ∨
        (extract_options_from_stem q.stem).option_b ≠ "" then
      { q with
          stem := (extract_options_from_stem q.stem).stem_clean,
          options :=
            ⟨(extract_options_from_stem q.stem).option_a,
              (extract_options_from_stem q.stem).option_b,
              (extract_options_from_stem q.stem).option_c,
              (extract_options_from_stem q.stem).option_d,
              (extract_options_from_stem q.stem).option_e⟩ }
    else q
  else q

/-- The record-correction pass of `fix_json_file` (its file reading,
counting and printing are I/O around this map). -/
def fixJsonQuestions (l : List QuestionRecord) : List QuestionRecord :=
  l.map fixRecordJson

/-!
## Question Parser (`RevalidaPDFExtractor.parse_question_block`)

The primary boundary is `re.search(r'\n\s*A\s*[.)\-]\s*', block)`: a
newline, optional whitespace, the letter `A`, optional whitespace and
one of `.`, `)`, `-`.  When it matches, the option section is cut out
and scanned with
`\n\s*([A-E])\s*[.)\-]\s*(.+?)(?=\n\s*[A-E]\s*[.)\-]|\Z)` (DOTALL).
-/

/-- One of the option punctuation marks `[.)\-]`. -/
def isOptPunct (c : Char) : Bool :=
  c == '.' || c == ')' || c == '-'

/-- `\n\s*A\s*[.)\-]` tested at a fixed start position (the trailing
`\s*` of the search pattern does not influence the start). -/
def pat146 (l : List Char) : Bool :=
  match l with
  | '\n' :: t =>
    let k1 := wsRun t
    ((t.drop k1).head? == some 'A') &&
      (let u := t.drop (k1 + 1)
       match (u.drop (wsRun u)).head? with
       | some c => isOptPunct c
       | none => false)
  | _ => false

/-- Leftmost start of the primary option boundary
`re.search(r'\n\s*A\s*[.)\-]\s*', block)`. -/
def search146 (l : List Char) : Option Nat :=
  scanPos pat146 l

/-- The zero-width lookahead `\n\s*[A-E]\s*[.)\-]` tested at a fixed
position. -/
def markerAt (l : List Char) : Bool :=
  match l with
  | '\n' :: t =>
    let k1 := wsRun t
    (match (t.drop k1).head? with
     | some c => isLetterAE c
     | none => false) &&
      (let u := t.drop (k1 + 1)
       match (u.drop (wsRun u)).head? with
       | some c => isOptPunct c
       | none => false)
  | _ => false

/-- Offset of the first position of `l` where the marker lookahead
matches, or `l.length` when it never does (which models the `\Z`
alternative of the lookahead). -/
def firstMarkerPos : List Char → Nat
  | [] => 0
  | c :: rest => if markerAt (c :: rest) then 0 else 1 + firstMarkerPos rest

/-- One full match attempt of the option pattern at the head of `l`:
marker, then greedy `\s*`, then the lazy DOTALL `(.+?)` stopped by the
next marker or the end of the text.  On success: captured letter,
captured text, rest of the input after the match.  The greedy `\s*`
after the punctuation mark backtracks one character only when the text
would otherwise be empty, exactly as the Python engine does. -/
def optMatchHere (l : List Char) : Option (Char × List Char × List Char) :=
  match l with
  | '\n' :: t =>
    let k1 := wsRun t
    match (t.drop k1).head? with
    | none => none
    | some c =>
      if isLetterAE c then
        let u := t.drop (k1 + 1)
        let k2 := wsRun u
        match (u.drop k2).head? with
        | none => none
        | some pc =>
          if isOptPunct pc then
            let v := u.drop (k2 + 1)
            let w := wsRun v
            let s := if w < v.length then w else v.length - 1
            if s < v.length then
              let j := s + 1 + firstMarkerPos (v.drop (s + 1))
              some (c, (v.drop s).take (j - s), v.drop j)
            else none
          else none
      else none
  | _ => none

/-- `option_pattern.finditer(option_section)`: leftmost matches in
order, each continuing after the end of the previous one.  Fuel-driven;
each step consumes at least one character. -/
def optFindIterF : Nat → List Char → List (Char × List Char)
  | 0, _ => []
  | _ + 1, [] => []
  | fuel + 1, c :: rest =>
    match optMatchHere (c :: rest) with
    | some (letter, body, after) => (letter, body) :: optFindIterF fuel after
    | none => optFindIterF fuel rest

/-- Per-match text cleanup of `parse_question_block`: strip, cut at an
embedded option marker (`re.split(r'\n\s*[A-E]\s*[.)\-]', text)[0]`),
then `normalize_text`. -/
def parseOptionText (body : List Char) : List Char :=
  let t := trimList body
  normalize_text (t.take (firstMarkerPos t))

/-- Fold the option matches into the options dictionary, later
assignments to the same letter overwriting earlier ones; empty cleaned
text is not assigned. -/
def applyOptMatches (ms : List (Char × List Char)) (o : OptsFive) : OptsFive :=
  ms.foldl
    (fun acc pr =>
      let text := parseOptionText pr.2
      if isLetterAE pr.1 ∧ text ≠ [] then
        setOptFive acc (String.singleton pr.1) (String.mk text)
      else acc)
    o

/-- `re.sub(r'^\s*QUEST[ÃAÀ]O\s*\d{1,3}\s*[\s:\-]?\s*', '', stem,
flags=re.IGNORECASE)`: remove the question header from the start of
the stem when it matches there. -/
def stripHeader (l : List Char) : List Char :=
  let t := l.drop (wsRun l)
  if ciPrefix "QUEST".data t then
    match t.drop 5 with
    | v :: o :: rest =>
      if (toUpperPT v == 'Ã' || toUpperPT v == 'A' || toUpperPT v == 'À') &&
          (toUpperPT o == 'O') then
        let r1 := rest.drop (wsRun rest)
        let d := digitRun r1
        if d = 0 then l
        else
          let g := min d 3
          let r2 := r1.drop g
          let r3 := r2.drop (wsRun r2)
          let r4 :=
            match r3.head? with
            | some c => if c = ':' ∨ c = '-' then r3.drop 1 else r3
            | none => r3
          r4.drop (wsRun r4)
      else l
    | _ => l
  else l

/-- Result record of `parse_question_block` (the dictionary it
returns). -/
structure ParsedBlock where
  stem : String
  option_a : String
  option_b : String
  option_c : String
  option_d : String
  option_e : String
deriving DecidableEq, Repr

/-- `RevalidaPDFExtractor.parse_question_block`: preprocess the block;
if the primary boundary matches, the text before it (header removed,
normalized) is the stem and the options are scanned out of the text
from the boundary onward; otherwise the whole block is the stem and
every option stays empty.  The stem is truncated to 8000 characters. -/
def parse_question_block (block : String) : ParsedBlock :=
  let b := preprocess_block block.data
  match search146 b with
  | some p =>
    let stem := normalize_text (stripHeader (b.take p))
    let optSec := b.drop p
    let opts := applyOptMatches (optFindIterF (optSec.length + 1) optSec) emptyOpts
    ⟨String.mk (stem.take 8000), opts.A, opts.B, opts.C, opts.D, opts.E⟩
  | none =>
    let stem := normalize_text (stripHeader b)
    ⟨String.mk (stem.take 8000), "", "", "", "", ""⟩

/-!
## Block Segmenter (`RevalidaPDFExtractor.split_into_question_blocks`)

Header pattern: `\n\s*QUEST[ÃAÀ]O\s*(\d{1,3})\s*[\s:\-]?` with
IGNORECASE, found with `finditer` (leftmost, non-overlapping).
-/

/-- One match attempt of the header pattern at the head of `l`:
on success, the captured number and the length of the match. -/
def headerHere (l : List Char) : Option (Nat × Nat) :=
  match l with
  | '\n' :: t =>
    let k0 := wsRun t
    let u := t.drop k0
    if ciPrefix "QUEST".data u then
      match u.drop 5 with
      | v :: o :: rest =>
        if (toUpperPT v == 'Ã' || toUpperPT v == 'A' || toUpperPT v == 'À') &&
            (toUpperPT o == 'O') then
          let k1 := wsRun rest
          let r1 := rest.drop k1
          let d := digitRun r1
          if d = 0 then none
          else
            let g := min d 3
            let num := natOfDigits (r1.take g)
            let r2 := r1.drop g
            let k2 := wsRun r2
            let sep :=
              match (r2.drop k2).head? with
              | some c => if c = ':' ∨ c = '-' then 1 else 0
              | none => 0
            some (num, 1 + k0 + 7 + k1 + g + k2 + sep)
        else none
      | _ => none
    else none
  | _ => none

/-- `QUESTION_HEADER_REGEX.finditer(text)`: for every match, its start
position, end position and captured number, scanning left to right and
resuming after each match end.  Fuel-driven with absolute positions. -/
def headerIterF : Nat → Nat → List Char → List (Nat × Nat × Nat)
  | 0, _, _ => []
  | _ + 1, _, [] => []
  | fuel + 1, pos, c :: rest =>
    match headerHere (c :: rest) with
    | some (num, len) =>
      (pos, pos + len, num) :: headerIterF fuel (pos + len) ((c :: rest).drop len)
    | none => headerIterF fuel (pos + 1) rest

/-- All header matches of a text. -/
def headerMatches (l : List Char) : List (Nat × Nat × Nat) :=
  headerIterF (l.length + 1) 0 l

/-- Does `l` start with `pat` (plain, case-sensitive)? -/
def startsWithPat : List Char → List Char → Bool
  | [], _ => true
  | _ :: _, [] => false
  | p :: ps, c :: cs => (p == c) && startsWithPat ps cs

/-- `text.count('--- PAGE ')`: non-overlapping occurrence count. -/
def countSubF (pat : List Char) : Nat → List Char → Nat
  | 0, _ => 0
  | _ + 1, [] => 0
  | fuel + 1, c :: rest =>
    if startsWithPat pat (c :: rest) then
      1 + countSubF pat fuel ((c :: rest).drop pat.length)
    else countSubF pat fuel rest

/-- Count of page-delimiter markers in a character list. -/
def countPageMarkers (l : List Char) : Nat :=
  countSubF "--- PAGE ".data (l.length + 1) l

/-- End position of the current block: the start of the next match in
the list (valid or not), or the end of the text. -/
def blocksEnd (l : List Char) : List (Nat × Nat × Nat) → Nat
  | (s2, _, _) :: _ => s2
  | [] => l.length

/-- Inner loop of `split_into_question_blocks` over the match list:
matches with a number outside `[1,200]` are skipped, every block ends
at the start of the next match in the list (valid or not) or at the
end of the text. -/
def blocksFromMatches (l : List Char) : List (Nat × Nat × Nat) → List (Nat × String × Nat)
  | [] => []
  | (start, _, num) :: rest =>
    if 1 ≤ num ∧ num ≤ 200 then
      (num, String.mk ((l.take (blocksEnd l rest)).drop start),
        max 1 (countPageMarkers (l.take start))) :: blocksFromMatches l rest
    else blocksFromMatches l rest

/-- `RevalidaPDFExtractor.split_into_question_blocks`: list of
(question number, block text, approximate page). -/
def split_into_question_blocks (text : String) : List (Nat × String × Nat) :=
  blocksFromMatches text.data (headerMatches text.data)

/-!
## Answer Key Extractor (`RevalidaPDFExtractor.extract_gabarito`)

Section restriction by the last marker occurrence, then a scan for
`\b(\d{1,3})\s*[-\s.]?\s*([A-E])\b`, collected into a dictionary with
last-occurrence-wins updates and the range guard `1 <= num <= 200`.
-/

/-- Word characters for the `\b` boundary (`\w`): ASCII alphanumerics,
underscore, and the accented letters of the repository alphabet. -/
def isWordChar (c : Char) : Bool :=
  (decide ('a' ≤ c) && decide (c ≤ 'z')) ||
    (decide ('A' ≤ c) && decide (c ≤ 'Z')) ||
    c.isDigit || c == '_' || isUpperPT c || isUpperPT (toUpperPT c)

/-- Index of the last occurrence of `pat` in `l`, if any
(`str.rfind`). -/
def rfindSub (pat : List Char) : List Char → Option Nat
  | [] => none
  | c :: rest =>
    match rfindSub pat rest with
    | some j => some (j + 1)
    | none => if startsWithPat pat (c :: rest) then some 0 else none

/-- One match attempt of `\b(\d{1,3})\s*[-\s.]?\s*([A-E])\b` starting
exactly at the head of `l`, with `prev` the character just before `l`
(`none` at the start of the section).  On success: the number, the
letter, and the number of characters consumed.  A digit run longer
than three can never match (the character after the taken digits would
have to be the letter or the separator, but it is a digit), and the
separator branch cannot backtrack into a letter, so the attempt is
deterministic. -/
def gabMatchHere (prev : Option Char) (l : List Char) : Option (Nat × Char × Nat) :=
  let boundaryOk :=
    match prev with
    | none => true
    | some pc => !isWordChar pc
  if !boundaryOk then none
  else
    let r := digitRun l
    if r = 0 ∨ 3 < r then none
    else
      let num := natOfDigits (l.take r)
      let after := l.drop r
      let k1 := wsRun after
      match (after.drop k1).head? with
      | none => none
      | some c =>
        if c = '-' ∨ c = '.' then
          let after2 := after.drop (k1 + 1)
          let k2 := wsRun after2
          match after2.drop k2 with
          | [] => none
          | letter :: tail =>
            if isLetterAE letter &&
                (match tail.head? with
                 | some nc => !isWordChar nc
                 | none => true) then
              some (num, letter, r + k1 + 1 + k2 + 1)
            else none
        else
          match after.drop k1 with
          | [] => none
          | letter :: tail =>
            if isLetterAE letter &&
                (match tail.head? with
                 | some nc => !isWordChar nc
                 | none => true) then
              some (num, letter, r + k1 + 1)
            else none

/-- `pattern.finditer(section)` for the answer-key pattern: leftmost,
non-overlapping matches in scan order, tracking the previous character
for the word boundary.  Fuel-driven. -/
def gabScanF : Nat → Option Char → List Char → List (Nat × Char)
  | 0, _, _ => []
  | _ + 1, _, [] => []
  | fuel + 1, prev, c :: rest =>
    match gabMatchHere prev (c :: rest) with
    | some (num, letter, consumed) =>
      (num, letter) :: gabScanF fuel (some letter) ((c :: rest).drop consumed)
    | none => gabScanF fuel (some c) rest

/-- Python-dictionary update on an association list: overwrite in
place when the key exists, append otherwise. -/
def dictInsert {α : Type} (m : List (Nat × α)) (k : Nat) (v : α) : List (Nat × α) :=
  if m.any (fun p => p.1 == k) then
    m.map (fun p => if p.1 == k then (k, v) else p)
  else m ++ [(k, v)]

/-- Python-dictionary lookup (`dict.get`). -/
def dictGet {α : Type} (m : List (Nat × α)) (k : Nat) : Option α :=
  (m.find? (fun p => p.1 == k)).map Prod.snd

/-- `RevalidaPDFExtractor.extract_gabarito`: restrict to the text from
the last answer-key marker (or the final 3000 characters when no
marker occurs), scan for number-letter matches, and build the map with
the range guard, later matches overwriting earlier ones. -/
def extract_gabarito (text : String) : List (Nat × Char) :=
  let l := text.data
  let lower := l.map toLowerPT
  let gi :=
    match rfindSub "gabarito".data lower, rfindSub "respostas".data lower,
        rfindSub "resposta oficial".data lower with
    | none, none, none => none
    | a, b, c => some (max ((a.getD 0)) (max (b.getD 0) (c.getD 0)))
  let sect :=
    match gi with
    | some i => l.drop i
    | none => l.drop (l.length - 3000)
  (gabScanF (sect.length + 1) none sect).foldl
    (fun m pr =>
      if (1 ≤ pr.1 ∧ pr.1 ≤ 200) ∧ isLetterAE pr.2 then dictInsert m pr.1 pr.2
      else m)
    []

/-!
## Image Associator and Assembler (`associate_images_to_questions` and
the assembly loop of `extract_questions`)
-/

/-- `associate_images_to_questions`: question number to that page's
image list, empty when the page has none. -/
def associate_images_to_questions (blocks : List (Nat × String × Nat))
    (pageImages : List (Nat × List String)) : List (Nat × List String) :=
  blocks.foldl
    (fun m b => dictInsert m b.1 ((dictGet pageImages b.2.2).getD []))
    []

/-- The final record built by `extract_questions` (the
`ParsedQuestion` dataclass). -/
structure ParsedQuestion where
  number : Nat
  stem : String
  option_a : String
  option_b : String
  option_c : String
  option_d : String
  option_e : String
  correct_letter : String
  images : List String
  has_image : Bool
deriving DecidableEq, Repr

/-- Stable insertion into a number-sorted list (equal keys keep their
relative order, matching `list.sort(key=...)`). -/
def insertByNumber (q : ParsedQuestion) : List ParsedQuestion → List ParsedQuestion
  | [] => [q]
  | x :: xs => if q.number < x.number then q :: x :: xs else x :: insertByNumber q xs

/-- Stable sort by question number. -/
def sortByNumber (l : List ParsedQuestion) : List ParsedQuestion :=
  l.foldl (fun acc q => insertByNumber q acc) []

/-- The assembly loop of `RevalidaPDFExtractor.extract_questions`:
parse each block, look its number up in the answer key — defaulting to
the letter `"A"` (`gabarito.get(question_num, "A")`) — attach the
image list, and sort the result by number. -/
def assembleQuestions (blocks : List (Nat × String × Nat))
    (gabarito : List (Nat × Char)) (pageImages : List (Nat × List String)) :
    List ParsedQuestion :=
  let questionImages := associate_images_to_questions blocks pageImages
  let qs := blocks.map (fun b =>
    let parsed := parse_question_block b.2.1
    let correct :=
      match dictGet gabarito b.1 with
      | some c => String.singleton c
      | none => "A"
    let images := (dictGet questionImages b.1).getD []
    { number := b.1
      stem := parsed.stem
      option_a := parsed.option_a
      option_b := parsed.option_b
      option_c := parsed.option_c
      option_d := parsed.option_d
      option_e := parsed.option_e
      correct_letter := correct
      images := images
      has_image := decide (images ≠ []) : ParsedQuestion })
  sortByNumber qs

/-!
## Helper lemmas
-/

lemma dropWhile_eq_drop_wsRun : ∀ l : List Char, l.dropWhile isWs = l.drop (wsRun l) := by
  intro l
  induction l with
  | nil => rfl
  | cons c t ih =>
    by_cases h : isWs c = true
    · simp [List.dropWhile_cons, h, wsRun, List.takeWhile_cons, ih]
    · simp [List.dropWhile_cons, h, wsRun, List.takeWhile_cons]

lemma scanPos_spec (f : List Char → Bool) :
    ∀ (l : List Char) (p : Nat), scanPos f l = some p → f (l.drop p) = true := by
  intro l
  induction l with
  | nil => intro p h; simp [scanPos] at h
  | cons c cs ih =>
    intro p h
    rw [scanPos] at h
    by_cases hf : f (c :: cs) = true
    · simp [hf] at h
      subst h
      simpa using hf
    · simp [hf] at h
      obtain ⟨q, hq, rfl⟩ := h
      simpa using ih q hq

lemma trimRight_cons (a : Char) (t : List Char) (h : isWs a = false) :
    trimRight (a :: t) = a :: trimRight t := by
  unfold trimRight
  rw [List.reverse_cons, List.dropWhile_append]
  by_cases he : (t.reverse.dropWhile isWs).isEmpty
  · rw [if_pos he]
    have ht : t.reverse.dropWhile isWs = [] := by
      simpa [List.isEmpty_iff] using he
    simp [List.dropWhile_cons, h, ht]
  · rw [if_neg he]
    simp

lemma head_trimList_of_dropWhile (x : List Char) (h : x.dropWhile isWs = 'A' :: (x.dropWhile isWs).tail) :
    (trimList x).head? = some 'A' := by
  unfold trimList
  rw [h, trimRight_cons _ _ (by decide)]
  rfl

lemma dropWhile_head_A (x : List Char) (h : (x.drop (wsRun x)).head? = some 'A') :
    x.dropWhile isWs = 'A' :: (x.dropWhile isWs).tail := by
  rw [dropWhile_eq_drop_wsRun]
  cases hx : x.drop (wsRun x) with
  | nil => rw [hx] at h; simp at h
  | cons c t =>
    rw [hx] at h
    simp at h
    subst h
    rfl

lemma trimList_length_le (l : List Char) : (trimList l).length ≤ l.length := by
  unfold trimList trimRight
  calc ((l.dropWhile isWs).reverse.dropWhile isWs).reverse.length
      = ((l.dropWhile isWs).reverse.dropWhile isWs).length := by simp
    _ ≤ (l.dropWhile isWs).reverse.length := (List.dropWhile_sublist _).length_le
    _ = (l.dropWhile isWs).length := by simp
    _ ≤ l.length := (List.dropWhile_sublist _).length_le

lemma core1_head_A (t : List Char) (h : core1 t = true) :
    (t.drop (wsRun t)).head? = some 'A' := by
  unfold core1 at h
  simp only [Bool.and_eq_true, beq_iff_eq] at h
  exact h.1

lemma matchAt2_head_A (t : List Char) (h : matchAt2 t = true) :
    (t.drop (wsRun t)).head? = some 'A' := by
  unfold matchAt2 at h
  simp only [Bool.and_eq_true, beq_iff_eq] at h
  exact h.1.2

lemma core3_head_A (t : List Char) (h : core3 t = true) :
    (t.drop (wsRun t)).head? = some 'A' := by
  unfold core3 at h
  simp only [Bool.and_eq_true, beq_iff_eq] at h
  have h1 : t.head? = some 'A' := h.1
  cases t with
  | nil => simp at h1
  | cons c u =>
    simp at h1
    subst h1
    have hws : isWs 'A' = false := by decide
    simp [wsRun, List.takeWhile_cons, hws]

lemma trimList_head_A (x : List Char) (h : (x.drop (wsRun x)).head? = some 'A') :
    (trimList x).head? = some 'A' :=
  head_trimList_of_dropWhile x (dropWhile_head_A x h)

lemma nl_shift_head_A (x : List Char)
    (hh : x.head? = some '\n') (h : (x.tail.drop (wsRun x.tail)).head? = some 'A') :
    (x.drop (wsRun x)).head? = some 'A' := by
  cases x with
  | nil => simp at hh
  | cons c u =>
    simp at hh
    subst hh
    have hws : isWs '\n' = true := by decide
    simpa [wsRun, List.takeWhile_cons, hws] using h

lemma search1_head_A (l : List Char) (p : Nat) (h : search1 l = some p) :
    (trimList (l.drop p)).head? = some 'A' := by
  unfold search1 at h
  by_cases hc : core1 l = true
  · rw [if_pos hc] at h
    have : p = 0 := by simpa using h.symm
    subst this
    exact trimList_head_A _ (core1_head_A _ hc)
  · rw [if_neg hc] at h
    have hf := scanPos_spec nlCore1 l p h
    unfold nlCore1 at hf
    simp only [Bool.and_eq_true, beq_iff_eq] at hf
    exact trimList_head_A _ (nl_shift_head_A _ hf.1 (core1_head_A _ hf.2))

lemma search2_head_A (l : List Char) (p : Nat) (h : search2 l = some p) :
    (trimList (l.drop p)).head? = some 'A' := by
  unfold search2 at h
  exact trimList_head_A _ (matchAt2_head_A _ (scanPos_spec matchAt2 l p h))

lemma search3_head_A (l : List Char) (p : Nat) (h : search3 l = some p) :
    (trimList (l.drop p)).head? = some 'A' := by
  unfold search3 at h
  by_cases hc : core3 l = true
  · rw [if_pos hc] at h
    have : p = 0 := by simpa using h.symm
    subst this
    exact trimList_head_A _ (core3_head_A _ hc)
  · rw [if_neg hc] at h
    have hf := scanPos_spec nlCore3 l p h
    unfold nlCore3 at hf
    simp only [Bool.and_eq_true, beq_iff_eq] at hf
    exact trimList_head_A _ (nl_shift_head_A _ hf.1 (core3_head_A _ hf.2))

lemma findFirstOption_head_A (l : List Char) (p : Nat) (h : findFirstOption l = some p) :
    (trimList (l.drop p)).head? = some 'A' := by
  unfold findFirstOption at h
  cases h1 : search1 l with
  | some q => rw [h1] at h; exact search1_head_A l p (h1.trans h)
  | none =>
    rw [h1] at h
    cases h2 : search2 l with
    | some q => rw [h2] at h; exact search2_head_A l p (h2.trans h)
    | none => rw [h2] at h; exact search3_head_A l p h

lemma optionsLoop_nil (cur : Option String) (opts : OptsFive) :
    optionsLoop [] cur opts = opts := rfl

lemma optionsLoop_cons (p : String) (rest : List String) (cur : Option String)
    (opts : OptsFive) :
    optionsLoop (p :: rest) cur opts =
      (if strip p = "" then optionsLoop rest cur opts
       else if strip p ∈ (["A", "B", "C", "D", "E"] : List String) then
         optionsLoop rest (some (strip p)) opts
       else
         match cur with
         | some c => optionsLoop rest none (setOptFive opts c (cleanOptionText (strip p)))
         | none => optionsLoop rest none opts) := rfl

lemma flattenPairs_nil : flattenPairs [] = [] := rfl

lemma flattenPairs_cons (c : Char) (f : String) (rest : List (Char × String)) :
    flattenPairs ((c, f) :: rest) = String.singleton c :: f :: flattenPairs rest := rfl

lemma isLetterAE_cases {c : Char} (h : isLetterAE c = true) :
    c = 'A' ∨ c = 'B' ∨ c = 'C' ∨ c = 'D' ∨ c = 'E' := by
  unfold isLetterAE at h
  simp only [Bool.or_eq_true, beq_iff_eq] at h
  tauto

lemma isLetterAE_not_ws {c : Char} (h : isLetterAE c = true) : isWs c = false := by
  rcases isLetterAE_cases h with rfl | rfl | rfl | rfl | rfl <;> decide

lemma singleton_data (c : Char) : (String.singleton c).data = [c] := by
  simp [String.singleton, String.push]

lemma strip_singleton {c : Char} (h : isWs c = false) :
    strip (String.singleton c) = String.singleton c := by
  rw [String.ext_iff]
  simp [strip, singleton_data, trimList, trimRight, List.dropWhile_cons, h]

lemma singleton_ne_empty (c : Char) : String.singleton c ≠ "" := by
  simp [String.singleton, String.ext_iff]

lemma singleton_mem_letters {c : Char} (h : isLetterAE c = true) :
    String.singleton c ∈ (["A", "B", "C", "D", "E"] : List String) := by
  rcases isLetterAE_cases h with rfl | rfl | rfl | rfl | rfl <;> decide

lemma singleton_inj {c d : Char} (h : String.singleton c = String.singleton d) : c = d := by
  simpa [String.singleton, String.ext_iff] using h

lemma setOptFive_A_ne (opts : OptsFive) (letter text : String) (h : letter ≠ "A") :
    (setOptFive opts letter text).A = opts.A := by
  unfold setOptFive
  split_ifs with h1 h2 h3 h4 h5 <;> first | exact absurd h1 h | rfl

lemma matchSplitHere_letter {l : List Char} {c : Char} {rest : List Char}
    (h : matchSplitHere l = some (c, rest)) : isLetterAE c = true := by
  unfold matchSplitHere at h
  split at h
  · simp at h
  · split at h
    · simp at h
    · rename_i c' u heq
      split at h
      · rename_i hAE
        split at h
        · simp at h
        · simp at h
          exact h.1 ▸ hAE
      · simp at h

lemma findSplit_letter :
    ∀ {l pre : List Char} {c : Char} {rest : List Char},
      findSplit l = some (pre, c, rest) → isLetterAE c = true := by
  intro l
  induction l with
  | nil => intro pre c rest h; simp [findSplit] at h
  | cons x xs ih =>
    intro pre c rest h
    rw [findSplit] at h
    cases hm : matchSplitHere (x :: xs) with
    | some pr =>
      obtain ⟨c', r'⟩ := pr
      rw [hm] at h
      simp at h
      exact h.2.1 ▸ matchSplitHere_letter hm
    | none =>
      rw [hm] at h
      simp at h
      obtain ⟨a, hfs, heq⟩ := h
      exact ih hfs

lemma splitStructF_letters :
    ∀ (fuel : Nat) (l : List Char) (pr : Char × String),
      pr ∈ (splitStructF fuel l).2 → isLetterAE pr.1 = true := by
  intro fuel
  induction fuel with
  | zero => intro l pr h; simp [splitStructF] at h
  | succ n ih =>
    intro l pr h
    rw [splitStructF] at h
    cases hf : findSplit l with
    | none => rw [hf] at h; simp at h
    | some trip =>
      obtain ⟨pre, c, rest⟩ := trip
      rw [hf] at h
      simp at h
      rcases h with h | h
      · subst h; exact findSplit_letter hf
      · exact ih rest pr h

lemma loopPairs_strong :
    ∀ (pairs : List (Char × String)) (cur : Option String) (opts : OptsFive),
      (∀ pr ∈ pairs, isLetterAE pr.1 = true) →
      (optionsLoop (flattenPairs pairs) cur opts).A ≠ "" →
      opts.A ≠ "" ∨ 'A' ∈ pairs.map Prod.fst := by
  intro pairs
  induction pairs with
  | nil =>
    intro cur opts _ h
    rw [flattenPairs_nil, optionsLoop_nil] at h
    exact Or.inl h
  | cons hd rest ih =>
    obtain ⟨c, f⟩ := hd
    intro cur opts hAE h
    have hc : isLetterAE c = true := hAE (c, f) (List.mem_cons_self _ _)
    have hrest : ∀ pr ∈ rest, isLetterAE pr.1 = true :=
      fun pr hpr => hAE pr (List.mem_cons_of_mem _ hpr)
    rw [flattenPairs_cons, optionsLoop_cons, strip_singleton (isLetterAE_not_ws hc),
      if_neg (singleton_ne_empty c), if_pos (singleton_mem_letters hc),
      optionsLoop_cons] at h
    by_cases hcA : c = 'A'
    · exact Or.inr (by simp [hcA])
    · have hlift : opts.A ≠ "" ∨ 'A' ∈ rest.map Prod.fst →
          opts.A ≠ "" ∨ 'A' ∈ ((c, f) :: rest).map Prod.fst := by
        rintro (h | h)
        · exact Or.inl h
        · exact Or.inr (by simp [h])
      by_cases h1 : strip f = ""
      · rw [if_pos h1] at h
        exact hlift (ih _ _ hrest h)
      · rw [if_neg h1] at h
        by_cases h2 : strip f ∈ (["A", "B", "C", "D", "E"] : List String)
        · rw [if_pos h2] at h
          exact hlift (ih _ _ hrest h)
        · rw [if_neg h2] at h
          have hsa : String.singleton c ≠ "A" := fun hs => hcA (singleton_inj hs)
          rcases ih _ _ hrest h with h3 | h3
          · rw [setOptFive_A_ne _ _ _ hsa] at h3
            exact Or.inl h3
          · exact Or.inr (by simp [h3])

lemma extract_option_a_captured (l : List Char) (p : Nat)
    (h : findFirstOption l = some p)
    (ha : (extractOptionsCore l).option_a ≠ "") :
    'A' ∈ capturedLetters (trimList (l.drop p)) := by
  unfold extractOptionsCore at ha
  rw [h] at ha
  simp only [splitParts] at ha
  set ot := trimList (l.drop p) with hot
  have hAE : ∀ pr ∈ (splitStruct ot).2, isLetterAE pr.1 = true :=
    fun pr hpr => splitStructF_letters _ _ pr hpr
  rw [optionsLoop_cons] at ha
  have final :
      (optionsLoop (flattenPairs (splitStruct ot).2) none emptyOpts).A ≠ "" ∨
      (optionsLoop (flattenPairs (splitStruct ot).2)
        (some (strip (splitStruct ot).1)) emptyOpts).A ≠ "" := by
    by_cases h1 : strip (splitStruct ot).1 = ""
    · rw [if_pos h1] at ha; exact Or.inl ha
    · rw [if_neg h1] at ha
      by_cases h2 : strip (splitStruct ot).1 ∈ (["A", "B", "C", "D", "E"] : List String)
      · rw [if_pos h2] at ha; exact Or.inr ha
      · rw [if_neg h2] at ha; exact Or.inl ha
  have hA : 'A' ∈ (splitStruct ot).2.map Prod.fst := by
    rcases final with hf | hf
    · rcases loopPairs_strong _ _ _ hAE hf with h3 | h3
      · exact absurd rfl h3
      · exact h3
    · rcases loopPairs_strong _ _ _ hAE hf with h3 | h3
      · exact absurd rfl h3
      · exact h3
  exact hA

lemma stemClean_length_le (s : String) :
    (extract_options_from_stem s).stem_clean.length ≤ s.length := by
  unfold extract_options_from_stem extractOptionsCore
  cases h : findFirstOption s.data with
  | none =>
    simp only [h]
    exact le_refl _
  | some p =>
    simp only [h]
    show (trimList (s.data.take p)).length ≤ s.data.length
    calc (trimList (s.data.take p)).length ≤ (s.data.take p).length :=
          trimList_length_le _
      _ ≤ s.data.length := by
          rw [List.length_take]
          exact min_le_right _ _

lemma fixApi_noop (q : QuestionRecord) (h : q.options.A ≠ "") : fixRecordApi q = q := by
  unfold fixRecordApi
  rw [if_neg (fun hc => h hc.1)]

lemma fixJson_noop (q : QuestionRecord) (h : q.options.A ≠ "") : fixRecordJson q = q := by
  unfold fixRecordJson
  rw [if_neg (fun hc => h hc.1)]

lemma fixApi_stem_le (q : QuestionRecord) :
    (fixRecordApi q).stem.length ≤ q.stem.length := by
  unfold fixRecordApi
  split
  · cases h : findFirstOption q.stem.data with
    | none => exact le_refl _
    | some p => exact stemClean_length_le q.stem
  · exact le_refl _

lemma fixJson_stem_le (q : QuestionRecord) :
    (fixRecordJson q).stem.length ≤ q.stem.length := by
  unfold fixRecordJson
  split
  · split
    · exact stemClean_length_le q.stem
    · exact le_refl _
  · exact le_refl _

lemma parse_stem_le (b : String) : (parse_question_block b).stem.length ≤ 8000 := by
  unfold parse_question_block
  cases h : search146 (preprocess_block b.data) with
  | some p =>
    simp only [h]
    exact List.length_take_le _ _
  | none =>
    simp only [h]
    exact List.length_take_le _ _

/-- The fields of a record other than stem and options. -/
def frameOf (q : QuestionRecord) : Nat × String × List String × Bool :=
  (q.number, q.correct_letter, q.images, q.has_image)

lemma fixApi_frame (q : QuestionRecord) : frameOf (fixRecordApi q) = frameOf q := by
  unfold fixRecordApi
  split
  · split <;> rfl
  · rfl

lemma fixJson_frame (q : QuestionRecord) : frameOf (fixRecordJson q) = frameOf q := by
  unfold fixRecordJson
  split
  · split <;> rfl
  · rfl

lemma mem_dictInsert {α : Type} {m : List (Nat × α)} {k : Nat} {v : α}
    {p : Nat × α} (h : p ∈ dictInsert m k v) : p ∈ m ∨ p = (k, v) := by
  unfold dictInsert at h
  split at h
  · rw [List.mem_map] at h
    obtain ⟨q, hq, heq⟩ := h
    by_cases hk : q.1 == k
    · right; rw [← heq]; simp [hk]
    · left; rw [← heq]; simpa [hk] using hq
  · rw [List.mem_append] at h
    rcases h with h | h
    · exact Or.inl h
    · right; simpa using h

lemma gabFold_range :
    ∀ (ms : List (Nat × Char)) (m0 : List (Nat × Char)),
      (∀ p ∈ m0, 1 ≤ p.1 ∧ p.1 ≤ 200) →
      ∀ p ∈ ms.foldl
          (fun m pr =>
            if (1 ≤ pr.1 ∧ pr.1 ≤ 200) ∧ isLetterAE pr.2 then dictInsert m pr.1 pr.2
            else m)
          m0,
        1 ≤ p.1 ∧ p.1 ≤ 200 := by
  intro ms
  induction ms with
  | nil => intro m0 h0 p hp; exact h0 p hp
  | cons x xs ih =>
    intro m0 h0 p hp
    rw [List.foldl_cons] at hp
    by_cases hx : (1 ≤ x.1 ∧ x.1 ≤ 200) ∧ isLetterAE x.2
    · rw [if_pos hx] at hp
      refine ih _ ?_ p hp
      intro q hq
      rcases mem_dictInsert hq with h | h
      · exact h0 q h
      · rw [h]; exact hx.1
    · rw [if_neg hx] at hp
      exact ih _ h0 p hp

lemma gabGet_range (text : String) (n : Nat) (c : Char)
    (h : dictGet (extract_gabarito text) n = some c) : 1 ≤ n ∧ n ≤ 200 := by
  unfold dictGet at h
  cases hf : (extract_gabarito text).find? (fun p => p.1 == n) with
  | none => rw [hf] at h; simp at h
  | some pr =>
    rw [hf] at h
    have hmem := List.mem_of_find?_eq_some hf
    have hkey : pr.1 = n := by simpa using List.find?_some hf
    have := gabFold_range _ [] (by intro p hp; simp at hp) pr hmem
    rw [hkey] at this
    exact this

lemma blocksFromMatches_range :
    ∀ (l : List Char) (ms : List (Nat × Nat × Nat)) (b : Nat × String × Nat),
      b ∈ blocksFromMatches l ms → 1 ≤ b.1 ∧ b.1 ≤ 200 := by
  intro l ms
  induction ms with
  | nil => intro b h; simp [blocksFromMatches] at h
  | cons x xs ih =>
    obtain ⟨start, q, num⟩ := x
    intro b h
    rw [show blocksFromMatches l ((start, q, num) :: xs) =
        (if 1 ≤ num ∧ num ≤ 200 then
          (num, String.mk ((l.take (blocksEnd l xs)).drop start),
            max 1 (countPageMarkers (l.take start))) :: blocksFromMatches l xs
        else blocksFromMatches l xs) from rfl] at h
    by_cases hr : 1 ≤ num ∧ num ≤ 200
    · rw [if_pos hr] at h
      rcases List.mem_cons.mp h with h | h
      · rw [h]; exact hr
      · exact ih b h
    · rw [if_neg hr] at h
      exact ih b h

/-!
## Claim theorems
-/

/-- Claim C1: the claim states that a Question whose number is missing
from the answer key gets the empty string as correct_letter.  The
assembler instead fabricates the letter A: assembling one block
numbered 1 against an empty answer key yields correct_letter A, the
default of the lookup in extract_questions. -/
theorem c1_assembler_fabricates_A :
    (assembleQuestions [(1, "\nQUESTÃO 1 foo", 1)] [] []).map
        (fun q => q.correct_letter) = ["A"] := by decide

/-- Claim C2, counterexample: on the scenario block the parser does not
produce the stem and options the claim asserts, because the primary
boundary pattern requires a punctuation mark after the letter and the
block has none. -/
theorem c2_counterexample :
    parse_question_block
        "QUESTÃO 1 Patient has fever.\nA Abdominal pain\nB High fever\nC Cough\nD Headache\nE None" ≠
      ⟨"Patient has fever.", "Abdominal pain", "High fever", "Cough", "Headache", "None"⟩ := by
  decide

/-- Claim C2, amended: the primary split looks for a newline, optional
whitespace, the letter A, optional whitespace and one of the marks
period, closing parenthesis or hyphen.  The scenario block carries no
such mark, so no boundary is found, the whole block becomes the stem
and every option is empty; the same block with dotted option markers
parses to the stem and options the original claim expected. -/
theorem c2_amended :
    parse_question_block
        "QUESTÃO 1 Patient has fever.\nA Abdominal pain\nB High fever\nC Cough\nD Headache\nE None" =
      ⟨"Patient has fever. A Abdominal pain B High fever C Cough D Headache E None",
        "", "", "", "", ""⟩ ∧
    parse_question_block
        "QUESTÃO 1 Patient has fever.\nA. Abdominal pain\nB. High fever\nC. Cough\nD. Headache\nE. None" =
      ⟨"Patient has fever.", "Abdominal pain", "High fever", "Cough", "Headache", "None"⟩ := by
  decide

/-- Claim C3, counterexample: on the scenario stem the repair does not
recover option A as Dengue; the fragment carrying the option A text is
the part before the first captured letter of the alternating split and
is discarded. -/
theorem c3_counterexample :
    (extract_options_from_stem
        "Diagnosis? A Dengue B Zika C Chikungunya D Malaria E Leptospirosis").option_a ≠
      "Dengue" := by decide

/-- Claim C3, amended: the primary parse of the scenario text yields
the whole text as stem with all-empty options, and the repair pass
then recovers the stem Diagnosis? and options B through E, while
option A stays empty because the fragment holding its text precedes
the first letter token of the split and is discarded. -/
theorem c3_amended :
    parse_question_block "Diagnosis? A Dengue B Zika C Chikungunya D Malaria E Leptospirosis" =
      ⟨"Diagnosis? A Dengue B Zika C Chikungunya D Malaria E Leptospirosis",
        "", "", "", "", ""⟩ ∧
    extract_options_from_stem "Diagnosis? A Dengue B Zika C Chikungunya D Malaria E Leptospirosis" =
      ⟨"Diagnosis?", "", "Zika", "Chikungunya", "Malaria", "Leptospirosis"⟩ := by decide

/-- Claim C4, counterexample: a record with stem x A y triggers repair,
the repair leaves options A and B both empty, yet the batch repair of
the API still rewrites the record (the stem is truncated to x and
option C is wiped), contradicting the claim that such records are left
exactly as they were. -/
theorem c4_counterexample :
    (extract_options_from_stem "x A y").option_a = "" ∧
    (extract_options_from_stem "x A y").option_b = "" ∧
    fix_empty_options [⟨7, "x A y", ⟨"", "", "keep", "", ""⟩, "C", false, []⟩] ≠
      [⟨7, "x A y", ⟨"", "", "keep", "", ""⟩, "C", false, []⟩] := by decide

/-- Claim C4, amended: only the correction pass of fix_json_file
guards the commit; whenever the repair of the stem leaves options A
and B both empty, that pass returns the record unchanged.  The inline
batch repair of the API commits unconditionally once a boundary is
found, as the counterexample shows. -/
theorem c4_amended (q : QuestionRecord)
    (h1 : (extract_options_from_stem q.stem).option_a = "")
    (h2 : (extract_options_from_stem q.stem).option_b = "") :
    fixRecordJson q = q := by
  unfold fixRecordJson
  split
  · rw [if_neg (fun hc => hc.elim (fun ha => ha h1) (fun hb => hb h2))]
  · rfl

/-- Witness for the amended claim C4 at a concrete record. -/
theorem c4_amended_witness :
    fixRecordJson ⟨7, "x A y", ⟨"", "", "keep", "", ""⟩, "C", false, []⟩ =
      ⟨7, "x A y", ⟨"", "", "keep", "", ""⟩, "C", false, []⟩ :=
  c4_amended _ (by decide) (by decide)

/-- Claim C5, counterexample: an out-of-range header candidate (250)
produces no block but does terminate the span of the preceding block:
the block of question 1 stops at the start of the candidate header
instead of running to the next valid header, so the claimed span for
question 1 is not among the produced blocks. -/
theorem c5_counterexample :
    split_into_question_blocks "\nQUESTÃO 1 foo\nQUESTÃO 250 bar\nQUESTÃO 2 baz" =
      [(1, "\nQUESTÃO 1 foo", 1), (2, "\nQUESTÃO 2 baz", 1)] ∧
    (1, "\nQUESTÃO 1 foo\nQUESTÃO 250 bar", 1) ∉
      split_into_question_blocks "\nQUESTÃO 1 foo\nQUESTÃO 250 bar\nQUESTÃO 2 baz" := by
  decide

/-- Claim C5, amended: every produced block has a number in the range
1 to 200, and each block spans from the start of its header to the
start of the next header candidate in scan order, valid or not (or to
the document end); an out-of-range candidate yields no block of its
own but still bounds the preceding block, as the concrete evaluation
shows. -/
theorem c5_amended :
    (∀ (text : String) (b : Nat × String × Nat),
        b ∈ split_into_question_blocks text → 1 ≤ b.1 ∧ b.1 ≤ 200) ∧
    split_into_question_blocks "\nQUESTÃO 1 foo\nQUESTÃO 250 bar\nQUESTÃO 2 baz" =
      [(1, "\nQUESTÃO 1 foo", 1), (2, "\nQUESTÃO 2 baz", 1)] :=
  ⟨fun _ b h => blocksFromMatches_range _ _ b h, by decide⟩

/-- Witness for the amended claim C5 at a concrete text and block. -/
theorem c5_amended_witness :
    ((5, "\nQUESTÃO 5 x", 1) : Nat × String × Nat) ∈
        split_into_question_blocks "\nQUESTÃO 5 x" ∧
      (1 ≤ ((5, "\nQUESTÃO 5 x", 1) : Nat × String × Nat).1 ∧
        ((5, "\nQUESTÃO 5 x", 1) : Nat × String × Nat).1 ≤ 200) :=
  ⟨by decide, c5_amended.1 "\nQUESTÃO 5 x" _ (by decide)⟩

/-- Claim C6: the scenario answer text produces exactly the map 1 to
A, 2 to B, 3 to C; a later match for the same number overwrites an
earlier one (1-A then 1-B leaves B); and every number that the
extracted map binds lies in the range 1 to 200. -/
theorem c6_gabarito_map :
    extract_gabarito "... ANSWER KEY 1-A 2 B 3.C ..." = [(1, 'A'), (2, 'B'), (3, 'C')] ∧
    dictGet (extract_gabarito "GABARITO 1-A 1-B") 1 = some 'B' ∧
    ∀ (text : String) (n : Nat) (c : Char),
      dictGet (extract_gabarito text) n = some c → 1 ≤ n ∧ n ≤ 200 :=
  ⟨by decide, by decide, gabGet_range⟩

/-- Witness for claim C6 at a concrete text. -/
theorem c6_gabarito_map_witness :
    dictGet (extract_gabarito "GABARITO 1-A 1-B") 1 = some 'B' ∧ (1 ≤ 1 ∧ 1 ≤ 200) :=
  ⟨by decide, c6_gabarito_map.2.2 "GABARITO 1-A 1-B" 1 'B' (by decide)⟩

/-- Claim C7: a record whose option A is non-empty never triggers the
repair, so both batch repair passes return it (and any collection of
such records) unchanged. -/
theorem c7_repair_noop :
    (∀ q : QuestionRecord, q.options.A ≠ "" → fixRecordApi q = q ∧ fixRecordJson q = q) ∧
    (∀ l : List QuestionRecord, (∀ q ∈ l, q.options.A ≠ "") →
      fix_empty_options l = l ∧ fixJsonQuestions l = l) := by
  constructor
  · exact fun q h => ⟨fixApi_noop q h, fixJson_noop q h⟩
  · intro l h
    constructor
    · show l.map fixRecordApi = l
      have h1 : l.map fixRecordApi = l.map id :=
        List.map_congr_left (fun a ha => fixApi_noop a (h a ha))
      rw [h1, List.map_id]
    · show l.map fixRecordJson = l
      have h1 : l.map fixRecordJson = l.map id :=
        List.map_congr_left (fun a ha => fixJson_noop a (h a ha))
      rw [h1, List.map_id]

/-- Witness for claim C7 at a concrete record and collection. -/
theorem c7_repair_noop_witness :
    (⟨1, "s", ⟨"x", "y", "", "", ""⟩, "", false, []⟩ : QuestionRecord).options.A ≠ "" ∧
      (fixRecordApi ⟨1, "s", ⟨"x", "y", "", "", ""⟩, "", false, []⟩ =
          ⟨1, "s", ⟨"x", "y", "", "", ""⟩, "", false, []⟩ ∧
        fixRecordJson ⟨1, "s", ⟨"x", "y", "", "", ""⟩, "", false, []⟩ =
          ⟨1, "s", ⟨"x", "y", "", "", ""⟩, "", false, []⟩) ∧
      fix_empty_options [⟨1, "s", ⟨"x", "y", "", "", ""⟩, "", false, []⟩] =
        [⟨1, "s", ⟨"x", "y", "", "", ""⟩, "", false, []⟩] :=
  ⟨by decide, c7_repair_noop.1 _ (by decide),
    (c7_repair_noop.2 [⟨1, "s", ⟨"x", "y", "", "", ""⟩, "", false, []⟩]
      (by intro q hq; simp at hq; subst hq; decide)).1⟩

/-- Claim C8: the parser truncates every stem to at most 8000
characters, and both repair passes only ever replace a stem by a
stripped prefix of it, so the stem never grows and the bound is
preserved at every later stage. -/
theorem c8_stem_length_bound :
    (∀ block : String, (parse_question_block block).stem.length ≤ 8000) ∧
    (∀ q : QuestionRecord,
      (fixRecordApi q).stem.length ≤ q.stem.length ∧
      (fixRecordJson q).stem.length ≤ q.stem.length) :=
  ⟨parse_stem_le, fun q => ⟨fixApi_stem_le q, fixJson_stem_le q⟩⟩

/-- Claim C9: whenever the standalone repair finds a boundary at
position p of the stem, the stripped option section starts with the
letter A, and the returned option A can only be non-empty when the
alternating split captures a further whitespace-delimited single
letter A later in the option section — the fragment carrying the text
of the first option A is discarded because no letter token has been
seen when it is processed. -/
theorem c9_repair_discards_first_fragment (s : String) (p : Nat)
    (h : findFirstOption s.data = some p) :
    (trimList (s.data.drop p)).head? = some 'A' ∧
      ((extract_options_from_stem s).option_a ≠ "" →
        'A' ∈ capturedLetters (trimList (s.data.drop p))) :=
  ⟨findFirstOption_head_A s.data p h, fun ha => extract_option_a_captured s.data p h ha⟩

/-- Witness for claim C9 at a concrete stem. -/
theorem c9_witness :
    findFirstOption ("Sign? A Alpha B Beta C Ce D De E Ee" : String).data = some 5 ∧
      ((trimList (("Sign? A Alpha B Beta C Ce D De E Ee" : String).data.drop 5)).head? =
          some 'A' ∧
        ((extract_options_from_stem "Sign? A Alpha B Beta C Ce D De E Ee").option_a ≠ "" →
          'A' ∈ capturedLetters
            (trimList (("Sign? A Alpha B Beta C Ce D De E Ee" : String).data.drop 5)))) :=
  ⟨by decide,
    c9_repair_discards_first_fragment "Sign? A Alpha B Beta C Ce D De E Ee" 5 (by decide)⟩

/-- Claim C10: both batch repair passes change at most the stem and
options fields; number, correct_letter, images and has_image are
identical before and after, record by record and over whole
collections. -/
theorem c10_frame_preservation :
    (∀ q : QuestionRecord,
      frameOf (fixRecordApi q) = frameOf q ∧ frameOf (fixRecordJson q) = frameOf q) ∧
    (∀ l : List QuestionRecord,
      (fix_empty_options l).map frameOf = l.map frameOf ∧
      (fixJsonQuestions l).map frameOf = l.map frameOf) := by
  constructor
  · exact fun q => ⟨fixApi_frame q, fixJson_frame q⟩
  · intro l
    constructor
    · show (l.map fixRecordApi).map frameOf = l.map frameOf
      rw [List.map_map]
      exact List.map_congr_left (fun a _ => fixApi_frame a)
    · show (l.map fixRecordJson).map frameOf = l.map frameOf
      rw [List.map_map]
      exact List.map_congr_left (fun a _ => fixJson_frame a)
